import Mathlib

/-!
Verification development for `snowfall/training/ctc_graph.py`.

The file shallowly embeds the CTC topology builders (`build_ctc_topo`,
`build_ctc_topo2`) and the `CtcTrainingGraphCompiler` class.  Acceptors are
lists of arcs plus a final-state id (the textual `k2.Fsa.from_str` format is
materialised directly as an arc list, keeping the sort-by-source-state
invariant).  The external k2 algebra primitives used by `compile`
(`linear_fsa`, `intersect`, `connect`, `invert`, `arc_sort`, `compose`) are
out of scope of the repository and are embedded as free constructors of an
expression type, so the pipeline structure is fully visible.  Python
`assert` statements are embedded as `Option`-returning functions (`none` is
the raised `AssertionError`, with no partially constructed result).
-/

/-- An arc of a k2 FSA in the textual format
`source dest primary_label aux_label score`.  All scores written by
`ctc_graph.py` are `0.0`, so the score is kept as an integer. -/
structure Arc where
  src : Nat
  dst : Nat
  label : Int
  aux : Int
  score : Int
deriving DecidableEq

/-- A finite-state acceptor: the arc list handed to `k2.Fsa.from_str`
together with the designated final state (states are `0 .. finalState`). -/
structure Fsa where
  arcs : List Arc
  finalState : Nat
deriving DecidableEq

/-- Order used by `k2.arc_sort`: by source state, then by primary label. -/
def arcLe (a b : Arc) : Prop :=
  a.src < b.src ∨ (a.src = b.src ∧ a.label ≤ b.label)

instance : DecidableRel arcLe := fun a b => by
  unfold arcLe; exact inferInstance

instance : IsTotal Arc arcLe := ⟨by intro a b; unfold arcLe; omega⟩

instance : IsTrans Arc arcLe := ⟨by intro a b c; unfold arcLe; omega⟩

/-- Embedding of `k2.arc_sort`: stable sort of the arc list by
(source state, primary label). -/
def arc_sort (l : List Arc) : List Arc := l.insertionSort arcLe

/-- Embedding of the `k2.fsa_properties.ARC_SORTED` property bit: it is set
exactly when the arc list is sorted in the `arc_sort` order. -/
def isArcSorted (l : List Arc) : Bool := decide (l.Pairwise arcLe)

/-- Order used by `sorted(arcs, key=lambda arc: arc[0])` in
`build_ctc_topo2`: by source state only. -/
def srcLe (a b : Arc) : Prop := a.src ≤ b.src

instance : DecidableRel srcLe := fun a b => by
  unfold srcLe; exact inferInstance

instance : IsTotal Arc srcLe := ⟨by intro a b; unfold srcLe; omega⟩

instance : IsTrans Arc srcLe := ⟨by intro a b c; unfold srcLe; omega⟩

/-- Embedding of Python `sorted(arcs, key=lambda arc: arc[0])`. -/
def sortBySrc (l : List Arc) : List Arc := l.insertionSort srcLe

/-- One iteration of the outer loop of `build_ctc_topo` for state `i`:
the inner `for j in range(num_states)` loop followed by the arc
`i final_state -1 -1 0.0`. -/
def topo1Row (tokens : List Int) (i : Nat) : List Arc :=
  ((List.range tokens.length).map fun j =>
    if i = j then ⟨i, i, tokens.getD i 0, 0, 0⟩
    else ⟨i, j, tokens.getD j 0, tokens.getD j 0, 0⟩)
  ++ [⟨i, tokens.length, -1, -1, 0⟩]

/-- All arcs written by the loops of `build_ctc_topo`, in emission order. -/
def topo1Arcs (tokens : List Int) : List Arc :=
  (List.range tokens.length).flatMap (topo1Row tokens)

/-- Embedding of `build_ctc_topo(tokens)`.  The `assert 0 in tokens`
becomes the `Option` guard; `num_states = len(tokens)`,
`final_state = num_states`, then the arcs are built and the result is
arc-sorted. -/
def build_ctc_topo (tokens : List Int) : Option Fsa :=
  if 0 ∈ tokens then
    some ⟨arc_sort (topo1Arcs tokens), tokens.length⟩
  else none

/-- The four arcs appended per phone by the `for i, p in enumerate(phones)`
loop of `build_ctc_topo2`, with `i` already shifted by one as in the
source (`i += 1`). -/
def topo2PhoneArcs : Nat → List Int → List Arc
  | _, [] => []
  | i, p :: ps =>
    ⟨0, 0, p, p, 0⟩ :: ⟨0, i, p, p, 0⟩ :: ⟨i, i, p, 0, 0⟩ :: ⟨i, 0, p, 0, 0⟩ ::
      topo2PhoneArcs (i + 1) ps

/-- The raw arc list of `build_ctc_topo2` before sorting, for the phone
list `ps` already stripped of `0`: `start → start (0, eps)`,
`start → final (-1, -1)`, then the per-phone arcs.  The `[final]` marker
line of the source becomes the `finalState` field; since its sort key
`ps.length + 1` strictly exceeds every arc source, the stable Python sort
keeps it last, so modelling it outside the list is faithful. -/
def topo2Raw (ps : List Int) : List Arc :=
  ⟨0, 0, 0, 0, 0⟩ :: ⟨0, ps.length + 1, -1, -1, 0⟩ :: topo2PhoneArcs 1 ps

/-- Embedding of `build_ctc_topo2(phones)`: assert `0 ∈ phones`, remove the
first occurrence of `0` (`phones.remove(0)`), build the arcs, sort them by
source state, construct the FSA, and arc-sort it. -/
def build_ctc_topo2 (phones : List Int) : Option Fsa :=
  if 0 ∈ phones then
    some ⟨arc_sort (sortBySrc (topo2Raw (phones.erase 0))), (phones.erase 0).length + 1⟩
  else none

/-- A `k2.SymbolTable`: an association list from symbol strings to ids. -/
abbrev SymTab := List (String × Nat)

/-- Embedding of `token in table`. -/
def symContains (t : SymTab) (s : String) : Bool :=
  t.any (fun p => p.1 == s)

/-- Embedding of `table[token]` for a present token (the absent case, a
Python `KeyError`, is never reached by `compile` because absent words are
first replaced by the OOV symbol, which the constructor asserts present). -/
def symGet (t : SymTab) (s : String) : Nat :=
  match t.find? (fun p => p.1 == s) with
  | some p => p.2
  | none => 0

/-- Modelled from the spec: `get_phone_symbols` lives in `snowfall.common`,
which is not part of the given sources.  Per the spec it is the
"phone-id extraction utility returning the ordered set of non-epsilon
phone ids from a symbol table". -/
def get_phone_symbols (t : SymTab) : List Int :=
  (((t.map (fun p => (p.2 : Int))).filter (fun i => !(i == 0))).dedup).insertionSort
    (fun a b => a ≤ b)

/-- Embedding of the first statement of `CtcTrainingGraphCompiler.__init__`:
`if L_inv.properties & k2.fsa_properties.ARC_SORTED != 0: L_inv =
k2.arc_sort(L_inv)`.  In Python `&` binds tighter than `!=`, so the
condition reads "the ARC_SORTED bit is set", i.e. the input is re-sorted
exactly when it is already sorted. -/
def initLinv (L_inv : Fsa) : Fsa :=
  if isArcSorted L_inv.arcs then ⟨arc_sort L_inv.arcs, L_inv.finalState⟩ else L_inv

/-- The state of a `CtcTrainingGraphCompiler` instance. -/
structure Compiler where
  L_inv : Fsa
  phones : SymTab
  words : SymTab
  oov : String
  ctc_topo : Fsa
deriving DecidableEq

/-- Embedding of `CtcTrainingGraphCompiler.__init__`: the `L_inv`
conditional re-sort, the `assert oov in words` (as the `Option` guard),
the field assignments, and the topology construction
`k2.arc_sort(build_ctc_topo{,2}([0] + phone_ids))` selected by `topo`. -/
def mkCompiler (L_inv : Fsa) (phones words : SymTab) (topo oov : String) :
    Option Compiler :=
  let L := initLinv L_inv
  if symContains words oov then
    let phone_ids := get_phone_symbols phones
    let phone_ids_with_blank : List Int := 0 :: phone_ids
    let t := if topo == "normal" then build_ctc_topo phone_ids_with_blank
             else build_ctc_topo2 phone_ids_with_blank
    match t with
    | some f => some ⟨L, phones, words, oov, ⟨arc_sort f.arcs, f.finalState⟩⟩
    | none => none
  else none

/-- Embedding of the Python split-on-space of `compile` on the character
list: split on every single space character, keeping empty fragments (so
the empty transcript splits into one empty token, and leading, trailing or
doubled spaces yield empty tokens). -/
def splitChars : List Char → List (List Char)
  | [] => [[]]
  | c :: cs =>
    if c = ' ' then [] :: splitChars cs
    else (c :: (splitChars cs).headD []) :: (splitChars cs).tail

/-- The Python split-on-space at the `String` level. -/
def splitSpace (s : String) : List String :=
  (splitChars s.data).map (fun cs => String.mk cs)

/-- The word-id mapping of `CtcTrainingGraphCompiler.compile` for one
transcript: split on spaces, replace tokens absent from `words` by `oov`,
then map every token to its id. -/
def textToWordIds (words : SymTab) (oov : String) (text : String) : List Nat :=
  ((splitSpace text).map (fun token => if symContains words token then token else oov)).map
    (fun token => symGet words token)

/-- Free constructor representation of the external k2
finite-state-algebra primitives applied by `compile`.  Each constructor is
one primitive; `fsa` injects a stored acceptor (the lexicon or the cached
topology). -/
inductive FsaExpr where
  | fsa (f : Fsa)
  | linear_fsa (word_ids : List (List Nat))
  | intersect (a b : FsaExpr)
  | connect (a : FsaExpr)
  | invert (a : FsaExpr)
  | arc_sortE (a : FsaExpr)
  | compose (a b : FsaExpr)
deriving DecidableEq

/-- The value returned by `compile`: the pipeline expression plus the
`requires_grad_(False)` metadata flag. -/
structure TrainGraph where
  expr : FsaExpr
  requiresGrad : Bool
deriving DecidableEq

/-- Embedding of `CtcTrainingGraphCompiler.compile`, statement by
statement: build `word_ids`, `k2.linear_fsa`, intersect with `self.L_inv`,
connect, invert, arc-sort, compose with `self.ctc_topo`, connect, and
clear the gradient flag. -/
def Compiler.compile (c : Compiler) (texts : List String) : TrainGraph :=
  let word_ids := texts.map (textToWordIds c.words c.oov)
  let label_graph := FsaExpr.linear_fsa word_ids
  let decoding_graph :=
    FsaExpr.invert (FsaExpr.connect (FsaExpr.intersect label_graph (FsaExpr.fsa c.L_inv)))
  let decoding_graph := FsaExpr.arc_sortE decoding_graph
  let decoding_graph := FsaExpr.compose (FsaExpr.fsa c.ctc_topo) decoding_graph
  let decoding_graph := FsaExpr.connect decoding_graph
  { expr := decoding_graph, requiresGrad := false }

/-- The `compile` method viewed as a state transformer on the compiler
instance: the method body contains no assignment to `self`, so the
returned instance is the input one. -/
def Compiler.compileS (c : Compiler) (texts : List String) : Compiler × TrainGraph :=
  (c, c.compile texts)

/-- Fuel-bounded reachability along the arcs of an acceptor:
`reachableWithin f fuel s t` decides whether `t` is reachable from `s` in
at most `fuel` arc steps. -/
def reachableWithin (f : Fsa) : Nat → Nat → Nat → Bool
  | 0, s, t => s == t
  | fuel + 1, s, t =>
    s == t || f.arcs.any (fun a => a.src == s && reachableWithin f fuel a.dst t)

lemma sum_map_range_const {f : Nat → Nat} {c : Nat} :
    ∀ {n : Nat}, (∀ i, i < n → f i = c) → ((List.range n).map f).sum = n * c := by
  intro n
  induction n with
  | zero => intro _; simp
  | succ k ih =>
    intro h
    rw [List.range_succ, List.map_append, List.sum_append,
      ih (fun i hi => h i (Nat.lt_succ_of_lt hi))]
    simp [h k (Nat.lt_succ_self k), Nat.succ_mul]

lemma sum_map_range_single {f : Nat → Nat} {s : Nat} :
    ∀ {n : Nat}, s < n → f s = 1 → (∀ i, i < n → i ≠ s → f i = 0) →
      ((List.range n).map f).sum = 1 := by
  intro n
  induction n with
  | zero => intro h; exact absurd h (Nat.not_lt_zero s)
  | succ k ih =>
    intro hs h1 h0
    rw [List.range_succ, List.map_append, List.sum_append]
    by_cases hks : k = s
    · subst hks
      rw [sum_map_range_const (c := 0)
        (fun i hi => h0 i (Nat.lt_succ_of_lt hi) (Nat.ne_of_lt hi))]
      simp [h1]
    · have hs2 : s < k := by omega
      rw [ih hs2 h1 (fun i hi hne => h0 i (Nat.lt_succ_of_lt hi) hne)]
      simp [h0 k (Nat.lt_succ_self k) hks]

lemma countP_bne_add_count (i : Nat) : ∀ l : List Nat,
    l.countP (fun j => !(j == i)) + l.count i = l.length := by
  intro l
  induction l with
  | nil => simp
  | cons a t ih =>
    by_cases h : a = i
    · subst h
      simp [List.countP_cons, List.count_cons]
      omega
    · have h1 : (a == i) = false := beq_eq_false_iff_ne.mpr h
      have h2 : (i == a) = false := beq_eq_false_iff_ne.mpr (Ne.symm h)
      simp [List.countP_cons, List.count_cons, h1, h2]
      omega

lemma getD_mem {tokens : List Int} {j : Nat} (hj : j < tokens.length) :
    tokens.getD j 0 ∈ tokens := by
  rw [List.getD_eq_getElem tokens 0 hj]
  exact List.getElem_mem hj

lemma getD_beq_neg1 {tokens : List Int} (hnn : ∀ t ∈ tokens, 0 ≤ t) {j : Nat}
    (hj : j < tokens.length) : (tokens.getD j 0 == (-1 : Int)) = false := by
  refine beq_eq_false_iff_ne.mpr ?hne
  have := hnn _ (getD_mem hj)
  omega

lemma topo1_countP (tokens : List Int) (p : Arc → Bool) :
    (topo1Arcs tokens).countP p =
      ((List.range tokens.length).map fun i => (topo1Row tokens i).countP p).sum := by
  unfold topo1Arcs
  rw [List.countP_flatMap]
  rfl

lemma topo1Row_length (tokens : List Int) (i : Nat) :
    (topo1Row tokens i).length = tokens.length + 1 := by
  unfold topo1Row
  simp

lemma topo1Arcs_length (tokens : List Int) :
    (topo1Arcs tokens).length = tokens.length * tokens.length + tokens.length := by
  unfold topo1Arcs
  rw [List.length_flatMap,
    show List.length ∘ topo1Row tokens = fun i => (topo1Row tokens i).length from rfl,
    sum_map_range_const (c := tokens.length + 1)
      (fun i _ => topo1Row_length tokens i),
    Nat.mul_succ]

lemma topo1Row_count_self {tokens : List Int} {i : Nat} (hi : i < tokens.length) :
    (topo1Row tokens i).countP (fun a => a.src == a.dst) = 1 := by
  unfold topo1Row
  rw [List.countP_append, List.countP_map]
  have hmain : List.countP ((fun a : Arc => a.src == a.dst) ∘ fun j =>
      if i = j then (⟨i, i, tokens.getD i 0, 0, 0⟩ : Arc)
      else ⟨i, j, tokens.getD j 0, tokens.getD j 0, 0⟩) (List.range tokens.length)
      = List.countP (fun j => j == i) (List.range tokens.length) := by
    apply List.countP_congr
    intro j hj
    by_cases hij : i = j
    · subst hij; simp
    · have h1 : (i == j) = false := beq_eq_false_iff_ne.mpr hij
      have h2 : (j == i) = false := beq_eq_false_iff_ne.mpr (Ne.symm hij)
      simp [hij, h1, h2]
  have hone : List.countP (fun j => j == i) (List.range tokens.length) = 1 :=
    List.count_eq_one_of_mem (List.nodup_range _) (List.mem_range.mpr hi)
  have hfin : ((i : Nat) == tokens.length) = false := beq_eq_false_iff_ne.mpr (by omega)
  rw [hmain, hone]
  simp [List.countP_cons, hfin]

lemma topo1Row_count_final {tokens : List Int} {i : Nat} (hi : i < tokens.length) :
    (topo1Row tokens i).countP
      (fun a => a.dst == tokens.length && a.label == -1 && a.aux == -1) = 1 := by
  unfold topo1Row
  rw [List.countP_append]
  have hmap : List.countP
      (fun a : Arc => a.dst == tokens.length && a.label == -1 && a.aux == -1)
      ((List.range tokens.length).map fun j =>
        if i = j then (⟨i, i, tokens.getD i 0, 0, 0⟩ : Arc)
        else ⟨i, j, tokens.getD j 0, tokens.getD j 0, 0⟩) = 0 := by
    rw [List.countP_eq_zero]
    intro b hb
    rw [List.mem_map] at hb
    obtain ⟨j, hj, heq⟩ := hb
    rw [List.mem_range] at hj
    by_cases hij : i = j
    · subst hij
      rw [if_pos rfl] at heq
      have h1 : ((i : Nat) == tokens.length) = false := beq_eq_false_iff_ne.mpr (by omega)
      simp [← heq, h1]
    · rw [if_neg hij] at heq
      have h1 : ((j : Nat) == tokens.length) = false := beq_eq_false_iff_ne.mpr (by omega)
      simp [← heq, h1]
  rw [hmap]
  simp [List.countP_cons]

lemma topo1Row_count_cross {tokens : List Int} {i : Nat} (hi : i < tokens.length) :
    (topo1Row tokens i).countP (fun a => a.src != a.dst && a.dst != tokens.length)
      = tokens.length - 1 := by
  unfold topo1Row
  rw [List.countP_append, List.countP_map]
  have hmain : List.countP ((fun a : Arc => a.src != a.dst && a.dst != tokens.length) ∘
      fun j =>
      if i = j then (⟨i, i, tokens.getD i 0, 0, 0⟩ : Arc)
      else ⟨i, j, tokens.getD j 0, tokens.getD j 0, 0⟩) (List.range tokens.length)
      = List.countP (fun j => !(j == i)) (List.range tokens.length) := by
    apply List.countP_congr
    intro j hj
    rw [List.mem_range] at hj
    by_cases hij : i = j
    · subst hij; simp
    · have h1 : (i == j) = false := beq_eq_false_iff_ne.mpr hij
      have h2 : (j == i) = false := beq_eq_false_iff_ne.mpr (Ne.symm hij)
      have h3 : ((j : Nat) == tokens.length) = false := beq_eq_false_iff_ne.mpr (by omega)
      simp [hij, h1, h2, h3, bne]
  have hsum := countP_bne_add_count i (List.range tokens.length)
  have hone : (List.range tokens.length).count i = 1 :=
    List.count_eq_one_of_mem (List.nodup_range _) (List.mem_range.mpr hi)
  have hlen : (List.range tokens.length).length = tokens.length := List.length_range _
  have hfinal : ((fun a : Arc => a.src != a.dst && a.dst != tokens.length)
      (⟨i, tokens.length, -1, -1, 0⟩ : Arc)) = false := by
    simp [bne]
  rw [hmain]
  simp [List.countP_cons, hfinal]
  omega

lemma topo1Row_count_state_neg1 {tokens : List Int} (hnn : ∀ t ∈ tokens, 0 ≤ t)
    {i : Nat} (s : Nat) (hi : i < tokens.length) :
    (topo1Row tokens i).countP (fun a => a.src == s && a.label == -1)
      = if i = s then 1 else 0 := by
  unfold topo1Row
  rw [List.countP_append]
  have hmap : List.countP (fun a : Arc => a.src == s && a.label == -1)
      ((List.range tokens.length).map fun j =>
        if i = j then (⟨i, i, tokens.getD i 0, 0, 0⟩ : Arc)
        else ⟨i, j, tokens.getD j 0, tokens.getD j 0, 0⟩) = 0 := by
    rw [List.countP_eq_zero]
    intro b hb
    rw [List.mem_map] at hb
    obtain ⟨j, hj, heq⟩ := hb
    rw [List.mem_range] at hj
    subst heq
    by_cases hij : i = j
    · subst hij
      rw [if_pos rfl]
      show ¬((i == s) && (tokens.getD i 0 == -1)) = true
      rw [getD_beq_neg1 hnn hj]
      simp
    · rw [if_neg hij]
      show ¬((i == s) && (tokens.getD j 0 == -1)) = true
      rw [getD_beq_neg1 hnn hj]
      simp
  rw [hmap]
  by_cases his : i = s
  · subst his
    rw [if_pos rfl]
    simp [List.countP_cons]
  · rw [if_neg his]
    have h1 : ((i : Nat) == s) = false := beq_eq_false_iff_ne.mpr his
    simp [List.countP_cons, h1]

lemma topo1_mem_cases {tokens : List Int} {a : Arc} (ha : a ∈ topo1Arcs tokens) :
    (∃ i, i < tokens.length ∧ a = ⟨i, i, tokens.getD i 0, 0, 0⟩)
  ∨ (∃ i j, i < tokens.length ∧ j < tokens.length ∧ i ≠ j
      ∧ a = ⟨i, j, tokens.getD j 0, tokens.getD j 0, 0⟩)
  ∨ (∃ i, i < tokens.length ∧ a = ⟨i, tokens.length, -1, -1, 0⟩) := by
  unfold topo1Arcs at ha
  rw [List.mem_flatMap] at ha
  obtain ⟨i, hi, hrow⟩ := ha
  rw [List.mem_range] at hi
  unfold topo1Row at hrow
  rw [List.mem_append] at hrow
  rcases hrow with hmap | hfin
  · rw [List.mem_map] at hmap
    obtain ⟨j, hj, heq⟩ := hmap
    rw [List.mem_range] at hj
    by_cases hij : i = j
    · subst hij
      rw [if_pos rfl] at heq
      exact Or.inl ⟨i, hi, heq.symm⟩
    · rw [if_neg hij] at heq
      exact Or.inr (Or.inl ⟨i, j, hi, hj, hij, heq.symm⟩)
  · have := List.mem_singleton.mp hfin
    exact Or.inr (Or.inr ⟨i, hi, this⟩)

lemma splitChars_ne_nil : ∀ cs : List Char, splitChars cs ≠ [] := by
  intro cs
  induction cs with
  | nil => simp [splitChars]
  | cons c cs ih =>
    by_cases hc : c = ' '
    · simp [splitChars, hc]
    · simp [splitChars, hc]

lemma splitChars_append (xs ys : List Char) :
    splitChars (xs ++ ' ' :: ys) = splitChars xs ++ splitChars ys := by
  induction xs with
  | nil => simp [splitChars]
  | cons c xs ih =>
    rcases hsx : splitChars xs with _ | ⟨t, ts⟩
    · exact absurd hsx (splitChars_ne_nil xs)
    · by_cases hc : c = ' '
      · simp [splitChars, hc, ih]
      · simp [splitChars, hc, ih, hsx]

lemma topo2PhoneArcs_length : ∀ (k : Nat) (ps : List Int),
    (topo2PhoneArcs k ps).length = 4 * ps.length := by
  intro k ps
  induction ps generalizing k with
  | nil => simp [topo2PhoneArcs]
  | cons p ps ih =>
    simp only [topo2PhoneArcs, List.length_cons, ih, List.length]
    omega

lemma topo2PhoneArcs_mem {a : Arc} : ∀ {k : Nat} {ps : List Int},
    a ∈ topo2PhoneArcs k ps →
    ∃ i p, k ≤ i ∧ i < k + ps.length ∧ p ∈ ps
      ∧ (a = ⟨0, 0, p, p, 0⟩ ∨ a = ⟨0, i, p, p, 0⟩ ∨ a = ⟨i, i, p, 0, 0⟩
          ∨ a = ⟨i, 0, p, 0, 0⟩) := by
  intro k ps
  induction ps generalizing k with
  | nil => intro h; simp [topo2PhoneArcs] at h
  | cons p ps ih =>
    intro h
    simp only [topo2PhoneArcs, List.mem_cons] at h
    rcases h with h | h | h | h | h
    · exact ⟨k, p, Nat.le_refl k, by simp, List.mem_cons_self p ps, Or.inl h⟩
    · exact ⟨k, p, Nat.le_refl k, by simp, List.mem_cons_self p ps,
        Or.inr (Or.inl h)⟩
    · exact ⟨k, p, Nat.le_refl k, by simp, List.mem_cons_self p ps,
        Or.inr (Or.inr (Or.inl h))⟩
    · exact ⟨k, p, Nat.le_refl k, by simp, List.mem_cons_self p ps,
        Or.inr (Or.inr (Or.inr h))⟩
    · obtain ⟨i, q, hki, hlt, hq, hcase⟩ := ih h
      exact ⟨i, q, by omega, by simp at hlt ⊢; omega, List.mem_cons_of_mem p hq, hcase⟩

lemma topo2PhoneArcs_exit : ∀ (k : Nat) (ps : List Int) (i : Nat), k ≤ i →
    i < k + ps.length →
    ∃ p, p ∈ ps ∧ (⟨i, 0, p, 0, 0⟩ : Arc) ∈ topo2PhoneArcs k ps := by
  intro k ps
  induction ps generalizing k with
  | nil => intro i h1 h2; simp at h2; omega
  | cons p ps ih =>
    intro i h1 h2
    by_cases hik : i = k
    · subst hik
      exact ⟨p, List.mem_cons_self p ps, by simp [topo2PhoneArcs]⟩
    · have h3 : k + 1 ≤ i := by omega
      have h4 : i < (k + 1) + ps.length := by simp at h2; omega
      obtain ⟨q, hq, hmem⟩ := ih (k + 1) i h3 h4
      exact ⟨q, List.mem_cons_of_mem p hq, by simp [topo2PhoneArcs, hmem]⟩

lemma topo2PhoneArcs_count_neg1 : ∀ (k : Nat) (ps : List Int),
    (∀ p ∈ ps, 0 ≤ p) →
    (topo2PhoneArcs k ps).countP (fun a => a.label == -1) = 0 := by
  intro k ps
  induction ps generalizing k with
  | nil => intro _; simp [topo2PhoneArcs]
  | cons p ps ih =>
    intro hnn
    have hp : (p == (-1 : Int)) = false := by
      refine beq_eq_false_iff_ne.mpr ?hne
      have := hnn p (List.mem_cons_self p ps)
      omega
    simp only [topo2PhoneArcs, List.countP_cons,
      ih (k + 1) (fun q hq => hnn q (List.mem_cons_of_mem p hq))]
    simp [hp]

lemma reachableWithin_refl (f : Fsa) (fuel s : Nat) :
    reachableWithin f fuel s s = true := by
  cases fuel <;> simp [reachableWithin]

lemma reachableWithin_step (f : Fsa) {fuel s t : Nat} (a : Arc) (ha : a ∈ f.arcs)
    (hsrc : a.src = s) (h : reachableWithin f fuel a.dst t = true) :
    reachableWithin f (fuel + 1) s t = true := by
  simp only [reachableWithin, Bool.or_eq_true, List.any_eq_true]
  exact Or.inr ⟨a, ha, by simp [hsrc, h]⟩

/-- A lexicon that is not arc-sorted: both arcs leave state 0 with labels
out of order. -/
def badLinv : Fsa := ⟨[⟨0, 1, 2, 0, 0⟩, ⟨0, 1, 1, 0, 0⟩], 1⟩

/-- An arc-sorted lexicon with the same arcs. -/
def goodLinv : Fsa := ⟨[⟨0, 1, 1, 0, 0⟩, ⟨0, 1, 2, 0, 0⟩], 1⟩

/-- C1, code-bug evaluation.  The claim says the constructor arc-sorts a
lexicon that is not yet arc-sorted, so the stored `L_inv` is always
arc-sorted.  The code tests `(properties & ARC_SORTED) != 0` — in Python
`&` binds tighter than `!=` — so it re-sorts exactly the inputs that are
already sorted and stores an unsorted lexicon unchanged: on `badLinv` the
constructor leaves the arcs unsorted (conjuncts 1–4), while on an already
sorted lexicon the taken branch is a no-op (conjunct 5). -/
theorem claim_C1_code_bug_eval :
    isArcSorted badLinv.arcs = false
  ∧ initLinv badLinv = badLinv
  ∧ isArcSorted (initLinv badLinv).arcs = false
  ∧ (mkCompiler badLinv [] [("<UNK>", 1)] "modified" "<UNK>").map
      (fun c => c.L_inv) = some badLinv
  ∧ initLinv goodLinv = goodLinv := by
  refine ⟨by decide, by decide, by decide, by decide, by decide⟩

/-- C5: `compile` applies exactly the pipeline word-ids → linear acceptor →
intersect with the stored inverted lexicon → connect → invert → arc-sort →
compose with the cached topology (topology as the first composition
argument) → connect, and the word-id batch has one entry per transcript in
input order. -/
theorem claim_C5_pipeline (c : Compiler) (texts : List String) :
    (c.compile texts).expr =
      FsaExpr.connect (FsaExpr.compose (FsaExpr.fsa c.ctc_topo)
        (FsaExpr.arc_sortE (FsaExpr.invert (FsaExpr.connect (FsaExpr.intersect
          (FsaExpr.linear_fsa (texts.map (textToWordIds c.words c.oov)))
          (FsaExpr.fsa c.L_inv))))))
  ∧ (texts.map (textToWordIds c.words c.oov)).length = texts.length
  ∧ (∀ i : Nat, (texts.map (textToWordIds c.words c.oov))[i]? =
      (texts[i]?).map (textToWordIds c.words c.oov)) :=
  ⟨rfl, List.length_map texts _, fun i => List.getElem?_map _ texts i⟩

/-- C9: a `compile` call leaves the compiler state unchanged — the method
body assigns nothing to `self`, so the state-transformer view returns the
input instance and every stored field (`L_inv`, `ctc_topo`, `phones`,
`words`, `oov`) is identical before and after the call; in particular the
cached topology acceptor is never mutated after construction. -/
theorem claim_C9_frame (c : Compiler) (texts : List String) :
    (c.compileS texts).1 = c
  ∧ (c.compileS texts).1.L_inv = c.L_inv
  ∧ (c.compileS texts).1.ctc_topo = c.ctc_topo
  ∧ (c.compileS texts).1.phones = c.phones
  ∧ (c.compileS texts).1.words = c.words
  ∧ (c.compileS texts).1.oov = c.oov :=
  ⟨rfl, rfl, rfl, rfl, rfl, rfl⟩

/-- C8: both topology builders fail (raise, i.e. return `none` with no
partially constructed result) when the token list does not contain `0`,
and the compiler constructor fails when the configured OOV symbol is
absent from the word table. -/
theorem claim_C8_construction_failures :
    (∀ tokens : List Int, 0 ∉ tokens → build_ctc_topo tokens = none)
  ∧ (∀ phones : List Int, 0 ∉ phones → build_ctc_topo2 phones = none)
  ∧ (∀ (L : Fsa) (phones words : SymTab) (topo oov : String),
      symContains words oov = false → mkCompiler L phones words topo oov = none) := by
  refine ⟨?t1, ?t2, ?t3⟩
  · intro tokens h
    simp [build_ctc_topo, h]
  · intro phones h
    simp [build_ctc_topo2, h]
  · intro L phones words topo oov h
    simp [mkCompiler, h]

/-- Witness for C8 at concrete inputs. -/
theorem claim_C8_witness :
    (0 : Int) ∉ ([1] : List Int)
  ∧ build_ctc_topo [1] = none
  ∧ (0 : Int) ∉ ([2] : List Int)
  ∧ build_ctc_topo2 [2] = none
  ∧ symContains [("a", 1)] "<UNK>" = false
  ∧ mkCompiler ⟨[], 0⟩ [] [("a", 1)] "modified" "<UNK>" = none :=
  ⟨by decide, claim_C8_construction_failures.1 [1] (by decide), by decide,
    claim_C8_construction_failures.2.1 [2] (by decide), by decide,
    claim_C8_construction_failures.2.2 ⟨[], 0⟩ [] [("a", 1)] "modified" "<UNK>"
      (by decide)⟩

/-- C2: for a token list of length `n` containing `0`, `build_ctc_topo`
returns an acceptor with final state `n` (states `0..n`, i.e. `n + 1`
states) and `n² + n` arcs: `n` self-loops labelled `(token[i], eps)`, `n·(n−1)`
cross arcs `i → j` labelled `(token[j], token[j])`, and `n` arcs labelled
`(-1, -1)` ending in the final state. -/
theorem claim_C2_quadratic_topology (tokens : List Int) (h : 0 ∈ tokens)
    (f : Fsa) (hf : build_ctc_topo tokens = some f) :
    f.finalState = tokens.length
  ∧ f.arcs.length = tokens.length * tokens.length + tokens.length
  ∧ f.arcs.countP (fun a => a.src == a.dst) = tokens.length
  ∧ f.arcs.all (fun a => a.src != a.dst
      || (a.label == tokens.getD a.src 0 && a.aux == 0)) = true
  ∧ f.arcs.countP (fun a => a.src != a.dst && a.dst != tokens.length)
      = tokens.length * (tokens.length - 1)
  ∧ f.arcs.all (fun a => (a.src == a.dst || a.dst == tokens.length)
      || (a.label == tokens.getD a.dst 0 && a.aux == tokens.getD a.dst 0)) = true
  ∧ f.arcs.countP (fun a => a.dst == tokens.length && a.label == -1 && a.aux == -1)
      = tokens.length
  ∧ f.arcs.all (fun a => a.dst != tokens.length || (a.label == -1 && a.aux == -1))
      = true := by
  have hfeq : f = ⟨arc_sort (topo1Arcs tokens), tokens.length⟩ := by
    rw [build_ctc_topo, if_pos h] at hf
    exact (Option.some.inj hf).symm
  have harcs : f.arcs = arc_sort (topo1Arcs tokens) := by rw [hfeq]
  have hperm : (arc_sort (topo1Arcs tokens)).Perm (topo1Arcs tokens) :=
    List.perm_insertionSort arcLe (topo1Arcs tokens)
  refine ⟨by rw [hfeq], ?hlen, ?hself, ?hselfall, ?hcross, ?hcrossall, ?hfin, ?hfinall⟩
  · rw [harcs, hperm.length_eq, topo1Arcs_length]
  · rw [harcs, hperm.countP_eq, topo1_countP,
      sum_map_range_const (c := 1) (fun i hi => topo1Row_count_self hi)]
    omega
  · rw [harcs, List.all_eq_true]
    intro a ha
    rw [hperm.mem_iff] at ha
    rcases topo1_mem_cases ha with ⟨i, hi, rfl⟩ | ⟨i, j, hi, hj, hij, rfl⟩ | ⟨i, hi, rfl⟩
    · simp
    · have h1 : ((i : Nat) == j) = false := beq_eq_false_iff_ne.mpr hij
      simp [bne, h1]
    · have h1 : ((i : Nat) == tokens.length) = false := beq_eq_false_iff_ne.mpr (by omega)
      simp [bne, h1]
  · rw [harcs, hperm.countP_eq, topo1_countP,
      sum_map_range_const (c := tokens.length - 1)
        (fun i hi => topo1Row_count_cross hi)]
  · rw [harcs, List.all_eq_true]
    intro a ha
    rw [hperm.mem_iff] at ha
    rcases topo1_mem_cases ha with ⟨i, hi, rfl⟩ | ⟨i, j, hi, hj, hij, rfl⟩ | ⟨i, hi, rfl⟩
    · simp
    · simp
    · simp
  · rw [harcs, hperm.countP_eq, topo1_countP,
      sum_map_range_const (c := 1) (fun i hi => topo1Row_count_final hi)]
    omega
  · rw [harcs, List.all_eq_true]
    intro a ha
    rw [hperm.mem_iff] at ha
    rcases topo1_mem_cases ha with ⟨i, hi, rfl⟩ | ⟨i, j, hi, hj, hij, rfl⟩ | ⟨i, hi, rfl⟩
    · have h1 : ((i : Nat) == tokens.length) = false := beq_eq_false_iff_ne.mpr (by omega)
      simp [bne, h1]
    · have h1 : ((j : Nat) == tokens.length) = false := beq_eq_false_iff_ne.mpr (by omega)
      simp [bne, h1]
    · simp

/-- The acceptor built by `build_ctc_topo` on the token list `[0, 1]`. -/
def c2fsa : Fsa := (build_ctc_topo [0, 1]).getD ⟨[], 0⟩

/-- Witness for C2 at the token list `[0, 1]` (n = 2). -/
theorem claim_C2_witness :
    (0 : Int) ∈ ([0, 1] : List Int)
  ∧ build_ctc_topo [0, 1] = some c2fsa
  ∧ (c2fsa.finalState = 2
      ∧ c2fsa.arcs.length = 6
      ∧ c2fsa.arcs.countP (fun a => a.src == a.dst) = 2
      ∧ c2fsa.arcs.all (fun a => a.src != a.dst
          || (a.label == ([0, 1] : List Int).getD a.src 0 && a.aux == 0)) = true
      ∧ c2fsa.arcs.countP (fun a => a.src != a.dst && a.dst != 2) = 2
      ∧ c2fsa.arcs.all (fun a => (a.src == a.dst || a.dst == 2)
          || (a.label == ([0, 1] : List Int).getD a.dst 0
              && a.aux == ([0, 1] : List Int).getD a.dst 0)) = true
      ∧ c2fsa.arcs.countP (fun a => a.dst == 2 && a.label == -1 && a.aux == -1) = 2
      ∧ c2fsa.arcs.all (fun a => a.dst != 2 || (a.label == -1 && a.aux == -1))
          = true) :=
  ⟨by decide, by decide,
    claim_C2_quadratic_topology [0, 1] (by decide) c2fsa (by decide)⟩

/-- C3: for a phone list containing `0`, with `n` the number of phones left
after removing the (first) `0`, `build_ctc_topo2` returns an acceptor with
final state `n + 1` (i.e. `n + 2` states) whose arcs are exactly the
`4n + 2` listed arcs (as a multiset): `start → start (0, eps)`,
`start → final (-1, -1)`, and per phone `p` with dedicated state `i` the
arcs `start → start (p, p)`, `start → i (p, p)`, `i → i (p, eps)`,
`i → start (p, eps)`; moreover the arc list is ordered by source state
before construction. -/
theorem claim_C3_linear_topology (phones : List Int) (h : 0 ∈ phones)
    (f : Fsa) (hf : build_ctc_topo2 phones = some f) :
    f.finalState = (phones.erase 0).length + 1
  ∧ f.arcs.length = 4 * (phones.erase 0).length + 2
  ∧ f.arcs.Perm (topo2Raw (phones.erase 0))
  ∧ List.Sorted srcLe (sortBySrc (topo2Raw (phones.erase 0))) := by
  have hfeq : f = ⟨arc_sort (sortBySrc (topo2Raw (phones.erase 0))),
      (phones.erase 0).length + 1⟩ := by
    rw [build_ctc_topo2, if_pos h] at hf
    exact (Option.some.inj hf).symm
  have harcs : f.arcs = arc_sort (sortBySrc (topo2Raw (phones.erase 0))) := by rw [hfeq]
  have hperm : f.arcs.Perm (topo2Raw (phones.erase 0)) := by
    rw [harcs]
    exact (List.perm_insertionSort arcLe _).trans (List.perm_insertionSort srcLe _)
  refine ⟨by rw [hfeq], ?hlen, hperm, List.sorted_insertionSort srcLe _⟩
  · rw [hperm.length_eq]
    show (topo2Raw (phones.erase 0)).length = _
    unfold topo2Raw
    rw [List.length_cons, List.length_cons, topo2PhoneArcs_length]

/-- The acceptor built by `build_ctc_topo2` on the phone list `[0, 5]`. -/
def c3fsa : Fsa := (build_ctc_topo2 [0, 5]).getD ⟨[], 0⟩

/-- Witness for C3 at the phone list `[0, 5]` (n = 1). -/
theorem claim_C3_witness :
    (0 : Int) ∈ ([0, 5] : List Int)
  ∧ build_ctc_topo2 [0, 5] = some c3fsa
  ∧ (c3fsa.finalState = 2
      ∧ c3fsa.arcs.length = 6
      ∧ c3fsa.arcs.Perm (topo2Raw (([0, 5] : List Int).erase 0))
      ∧ List.Sorted srcLe (sortBySrc (topo2Raw (([0, 5] : List Int).erase 0)))) :=
  ⟨by decide, by decide,
    claim_C3_linear_topology [0, 5] (by decide) c3fsa (by decide)⟩

/-- The acceptor built by `build_ctc_topo2` on the phone list `[0, 1]`. -/
def c7fsa2 : Fsa := (build_ctc_topo2 [0, 1]).getD ⟨[], 0⟩

/-- C7, counterexample.  Read as stated — "every state has exactly one
`-1`-labeled arc (the arc path into the final state)" — the claim fails on
`build_ctc_topo2 [0, 1]`: its dedicated phone state `1` has no `-1`-labeled
arc at all (only the start state has one), so the per-state count is `0`,
not `1`. -/
theorem claim_C7_counterexample :
    ¬ (∀ f : Fsa, build_ctc_topo2 [0, 1] = some f →
        ∀ s, s < f.finalState →
          f.arcs.countP (fun a => a.src == s && a.label == -1) = 1) := by
  intro hcl
  exact absurd (hcl c7fsa2 (by decide) 1 (by decide)) (by decide)

/-- C7, amended.  For nonnegative token ids: in both topologies an arc
carries label `-1` exactly when it ends in the final state; in
`build_ctc_topo` every non-final state has exactly one `-1`-labeled arc,
while in `build_ctc_topo2` there is exactly one `-1`-labeled arc overall
(from the start state); and in both, the final state is reachable from
every state (so every state reaches the final state through a path whose
last arc is `-1`-labeled). -/
theorem claim_C7_amended :
    (∀ tokens : List Int, 0 ∈ tokens →
      tokens.all (fun t => decide (0 ≤ t)) = true →
      ∀ f, build_ctc_topo tokens = some f →
        f.arcs.all (fun a => (a.label == -1) == (a.dst == f.finalState)) = true
      ∧ (List.range f.finalState).all
          (fun s => f.arcs.countP (fun a => a.src == s && a.label == -1) == 1) = true
      ∧ (List.range f.finalState).all
          (fun s => reachableWithin f (f.finalState + 1) s f.finalState) = true)
  ∧ (∀ phones : List Int, 0 ∈ phones →
      phones.all (fun p => decide (0 ≤ p)) = true →
      ∀ f, build_ctc_topo2 phones = some f →
        f.arcs.all (fun a => (a.label == -1) == (a.dst == f.finalState)) = true
      ∧ f.arcs.countP (fun a => a.label == -1) = 1
      ∧ (List.range f.finalState).all
          (fun s => reachableWithin f (f.finalState + 1) s f.finalState) = true) := by
  constructor
  · intro tokens h hnnb f hf
    have hnn : ∀ t ∈ tokens, 0 ≤ t := by
      rw [List.all_eq_true] at hnnb
      intro t ht
      exact of_decide_eq_true (hnnb t ht)
    have hfeq : f = ⟨arc_sort (topo1Arcs tokens), tokens.length⟩ := by
      rw [build_ctc_topo, if_pos h] at hf
      exact (Option.some.inj hf).symm
    have harcs : f.arcs = arc_sort (topo1Arcs tokens) := by rw [hfeq]
    have hfs : f.finalState = tokens.length := by rw [hfeq]
    have hperm : (arc_sort (topo1Arcs tokens)).Perm (topo1Arcs tokens) :=
      List.perm_insertionSort arcLe (topo1Arcs tokens)
    refine ⟨?hiff, ?hcount, ?hreach⟩
    · rw [harcs, hfs, List.all_eq_true]
      intro a ha
      rw [hperm.mem_iff] at ha
      rcases topo1_mem_cases ha with ⟨i, hi, rfl⟩ | ⟨i, j, hi, hj, hij, rfl⟩ | ⟨i, hi, rfl⟩
      · have h1 := getD_beq_neg1 hnn hi
        have h2 : ((i : Nat) == tokens.length) = false :=
          beq_eq_false_iff_ne.mpr (by omega)
        show ((tokens.getD i 0 == -1) == ((i : Nat) == tokens.length)) = true
        rw [h1, h2]
        rfl
      · have h1 := getD_beq_neg1 hnn hj
        have h2 : ((j : Nat) == tokens.length) = false :=
          beq_eq_false_iff_ne.mpr (by omega)
        show ((tokens.getD j 0 == -1) == ((j : Nat) == tokens.length)) = true
        rw [h1, h2]
        rfl
      · simp
    · rw [harcs, hfs, List.all_eq_true]
      intro s hs
      rw [List.mem_range] at hs
      simp only [beq_iff_eq]
      rw [hperm.countP_eq, topo1_countP]
      exact sum_map_range_single hs
        (by rw [topo1Row_count_state_neg1 hnn s hs]; exact if_pos rfl)
        (fun i hi hne => by
          rw [topo1Row_count_state_neg1 hnn s hi]; exact if_neg hne)
    · rw [List.all_eq_true]
      intro s hs
      rw [List.mem_range, hfs] at hs
      have hmem : (⟨s, tokens.length, -1, -1, 0⟩ : Arc) ∈ f.arcs := by
        rw [harcs, hperm.mem_iff]
        unfold topo1Arcs
        rw [List.mem_flatMap]
        refine ⟨s, List.mem_range.mpr hs, ?hrow⟩
        unfold topo1Row
        rw [List.mem_append]
        exact Or.inr (List.mem_singleton.mpr rfl)
      rw [hfs]
      exact reachableWithin_step f _ hmem rfl (reachableWithin_refl f _ _)
  · intro phones h hnnb f hf
    have hnn : ∀ p ∈ phones.erase 0, 0 ≤ p := by
      rw [List.all_eq_true] at hnnb
      intro p hp
      exact of_decide_eq_true (hnnb p (List.mem_of_mem_erase hp))
    have hfeq : f = ⟨arc_sort (sortBySrc (topo2Raw (phones.erase 0))),
        (phones.erase 0).length + 1⟩ := by
      rw [build_ctc_topo2, if_pos h] at hf
      exact (Option.some.inj hf).symm
    have harcs : f.arcs = arc_sort (sortBySrc (topo2Raw (phones.erase 0))) := by
      rw [hfeq]
    have hfs : f.finalState = (phones.erase 0).length + 1 := by rw [hfeq]
    have hperm : (arc_sort (sortBySrc (topo2Raw (phones.erase 0)))).Perm
        (topo2Raw (phones.erase 0)) :=
      (List.perm_insertionSort arcLe _).trans (List.perm_insertionSort srcLe _)
    have hblank : ((0 : Int) == (-1 : Int)) = false := by decide
    refine ⟨?hiff2, ?hcount2, ?hreach2⟩
    · rw [harcs, hfs, List.all_eq_true]
      intro a ha
      rw [hperm.mem_iff] at ha
      unfold topo2Raw at ha
      rw [List.mem_cons, List.mem_cons] at ha
      have hi0 : ((0 : Nat) == (phones.erase 0).length + 1) = false :=
        beq_eq_false_iff_ne.mpr (by omega)
      rcases ha with rfl | rfl | ha
      · simp [hblank, hi0]
      · simp
      · obtain ⟨i, p, hki, hilt, hp, hcase⟩ := topo2PhoneArcs_mem ha
        have hpn : (p == (-1 : Int)) = false :=
          beq_eq_false_iff_ne.mpr (by have := hnn p hp; omega)
        have hii : ((i : Nat) == (phones.erase 0).length + 1) = false :=
          beq_eq_false_iff_ne.mpr (by omega)
        rcases hcase with rfl | rfl | rfl | rfl <;> simp [hpn, hi0, hii]
    · rw [harcs, hperm.countP_eq]
      unfold topo2Raw
      rw [List.countP_cons, List.countP_cons, topo2PhoneArcs_count_neg1 1 _ hnn]
      simp [hblank]
    · rw [List.all_eq_true]
      intro s hs
      rw [List.mem_range, hfs] at hs
      have hfinmem :
          (⟨0, (phones.erase 0).length + 1, -1, -1, 0⟩ : Arc) ∈ f.arcs := by
        rw [harcs, hperm.mem_iff]
        unfold topo2Raw
        exact List.mem_cons_of_mem _ (List.mem_cons_self _ _)
      have hreach0 : reachableWithin f ((phones.erase 0).length + 1) 0
          ((phones.erase 0).length + 1) = true :=
        reachableWithin_step f _ hfinmem rfl (reachableWithin_refl f _ _)
      rw [hfs]
      by_cases hs0 : s = 0
      · subst hs0
        exact reachableWithin_step f _ hfinmem rfl (reachableWithin_refl f _ _)
      · have h1 : 1 ≤ s := by omega
        have h2 : s < 1 + (phones.erase 0).length := by omega
        obtain ⟨p, hp, hmem⟩ := topo2PhoneArcs_exit 1 (phones.erase 0) s h1 h2
        have hmem2 : (⟨s, 0, p, 0, 0⟩ : Arc) ∈ f.arcs := by
          rw [harcs, hperm.mem_iff]
          unfold topo2Raw
          exact List.mem_cons_of_mem _ (List.mem_cons_of_mem _ hmem)
        exact reachableWithin_step f _ hmem2 rfl hreach0

/-- Witness for the amended C7 at token / phone list `[0, 1]`. -/
theorem claim_C7_witness :
    ((0 : Int) ∈ ([0, 1] : List Int)
      ∧ ([0, 1] : List Int).all (fun t => decide (0 ≤ t)) = true
      ∧ build_ctc_topo [0, 1] = some c2fsa
      ∧ (c2fsa.arcs.all
            (fun a => (a.label == -1) == (a.dst == c2fsa.finalState)) = true
        ∧ (List.range c2fsa.finalState).all
            (fun s => c2fsa.arcs.countP
              (fun a => a.src == s && a.label == -1) == 1) = true
        ∧ (List.range c2fsa.finalState).all
            (fun s => reachableWithin c2fsa (c2fsa.finalState + 1) s
              c2fsa.finalState) = true))
  ∧ ((0 : Int) ∈ ([0, 1] : List Int)
      ∧ ([0, 1] : List Int).all (fun p => decide (0 ≤ p)) = true
      ∧ build_ctc_topo2 [0, 1] = some c7fsa2
      ∧ (c7fsa2.arcs.all
            (fun a => (a.label == -1) == (a.dst == c7fsa2.finalState)) = true
        ∧ c7fsa2.arcs.countP (fun a => a.label == -1) = 1
        ∧ (List.range c7fsa2.finalState).all
            (fun s => reachableWithin c7fsa2 (c7fsa2.finalState + 1) s
              c7fsa2.finalState) = true)) :=
  ⟨⟨by decide, by decide, by decide,
      claim_C7_amended.1 [0, 1] (by decide) (by decide) c2fsa (by decide)⟩,
    ⟨by decide, by decide, by decide,
      claim_C7_amended.2 [0, 1] (by decide) (by decide) c7fsa2 (by decide)⟩⟩

lemma textToWordIds_empty (words : SymTab) (oov : String)
    (h0 : symContains words "" = false) :
    textToWordIds words oov "" = [symGet words oov] := by
  simp only [textToWordIds, show splitSpace "" = [""] from rfl, List.map_cons,
    List.map_nil]
  rw [h0]
  simp

lemma splitSpace_lead_space (s : String) :
    splitSpace (" " ++ s) = "" :: splitSpace s := by
  unfold splitSpace
  rw [show (" " ++ s).data = ' ' :: s.data from by rw [String.data_append]; rfl,
    show splitChars (' ' :: s.data) = [] :: splitChars s.data from by
      simp [splitChars],
    List.map_cons]
  try rfl

lemma splitSpace_trail_space (s : String) :
    splitSpace (s ++ " ") = splitSpace s ++ [""] := by
  unfold splitSpace
  rw [show (s ++ " ").data = s.data ++ ' ' :: [] from by rw [String.data_append]; try rfl,
    splitChars_append s.data [], List.map_append]
  try rfl

lemma splitSpace_double_space (s t : String) :
    splitSpace (s ++ "  " ++ t) = splitSpace s ++ "" :: splitSpace t := by
  unfold splitSpace
  rw [show (s ++ "  " ++ t).data = s.data ++ ' ' :: (' ' :: t.data) from by
      rw [String.data_append, String.data_append, List.append_assoc]; try rfl,
    splitChars_append s.data (' ' :: t.data),
    show splitChars (' ' :: t.data) = [] :: splitChars t.data from by
      simp [splitChars],
    List.map_append, List.map_cons]
  try rfl

lemma textToWordIds_lead_space (words : SymTab) (oov : String) (s : String)
    (h0 : symContains words "" = false) :
    textToWordIds words oov (" " ++ s)
      = symGet words oov :: textToWordIds words oov s := by
  simp only [textToWordIds, splitSpace_lead_space, List.map_cons]
  rw [h0]
  simp

lemma textToWordIds_trail_space (words : SymTab) (oov : String) (s : String)
    (h0 : symContains words "" = false) :
    textToWordIds words oov (s ++ " ")
      = textToWordIds words oov s ++ [symGet words oov] := by
  simp only [textToWordIds, splitSpace_trail_space, List.map_append, List.map_cons,
    List.map_nil]
  rw [h0]
  simp

lemma textToWordIds_double_space (words : SymTab) (oov : String) (s t : String)
    (h0 : symContains words "" = false) :
    textToWordIds words oov (s ++ "  " ++ t)
      = textToWordIds words oov s ++ symGet words oov :: textToWordIds words oov t := by
  simp only [textToWordIds, splitSpace_double_space, List.map_append, List.map_cons]
  rw [h0]
  simp

/-- C10: `compile` splits transcripts on single spaces, so the empty
transcript becomes the one-element id list `[oov id]`, a leading space
contributes an OOV id in front, a trailing space contributes one at the
end, and two consecutive spaces contribute one in the middle — every
empty-string token, being absent from the word table, is mapped to the
id of the configured OOV symbol. -/
theorem claim_C10_split_semantics (words : SymTab) (oov : String) (s t : String)
    (h0 : symContains words "" = false) :
    textToWordIds words oov "" = [symGet words oov]
  ∧ textToWordIds words oov (" " ++ s)
      = symGet words oov :: textToWordIds words oov s
  ∧ textToWordIds words oov (s ++ " ")
      = textToWordIds words oov s ++ [symGet words oov]
  ∧ textToWordIds words oov (s ++ "  " ++ t)
      = textToWordIds words oov s ++ symGet words oov :: textToWordIds words oov t :=
  ⟨textToWordIds_empty words oov h0, textToWordIds_lead_space words oov s h0,
    textToWordIds_trail_space words oov s h0,
    textToWordIds_double_space words oov s t h0⟩

/-- Word table for the concrete C10 witness. -/
def c10words : SymTab := [("a", 1), ("b", 2), ("<UNK>", 3)]

/-- Witness for C10 at a concrete word table and transcripts. -/
theorem claim_C10_witness :
    symContains c10words "" = false
  ∧ (textToWordIds c10words "<UNK>" "" = [symGet c10words "<UNK>"]
      ∧ textToWordIds c10words "<UNK>" (" " ++ "a")
          = symGet c10words "<UNK>" :: textToWordIds c10words "<UNK>" "a"
      ∧ textToWordIds c10words "<UNK>" ("a" ++ " ")
          = textToWordIds c10words "<UNK>" "a" ++ [symGet c10words "<UNK>"]
      ∧ textToWordIds c10words "<UNK>" ("a" ++ "  " ++ "b")
          = textToWordIds c10words "<UNK>" "a"
            ++ symGet c10words "<UNK>" :: textToWordIds c10words "<UNK>" "b") :=
  ⟨by decide, claim_C10_split_semantics c10words "<UNK>" "a" "b" (by decide)⟩

/-- Word table for the C4 counterexample: contains "a" and the OOV symbol,
but not the empty string. -/
def c4words : SymTab := [("a", 1), ("<UNK>", 3)]

/-- A concrete compiler instance over `c4words`. -/
def c4comp : Compiler := ⟨⟨[], 0⟩, [], c4words, "<UNK>", ⟨[], 0⟩⟩

/-- C4, counterexample.  The claim says `compile([""])` maps the empty
transcript to a zero-word id sequence (and hence to a blank-only
acceptor).  In fact splitting the empty transcript yields one empty
token, that token is absent
from the word table and is OOV-substituted, so the word-id sequence is
`[3]` — one word, not zero — and the linear acceptor in the pipeline is
built over `[[3]]`, not `[[]]`. -/
theorem claim_C4_counterexample :
    textToWordIds c4comp.words c4comp.oov "" = [3]
  ∧ ([3] : List Nat) ≠ []
  ∧ (c4comp.compile [""]).expr
      = FsaExpr.connect (FsaExpr.compose (FsaExpr.fsa c4comp.ctc_topo)
          (FsaExpr.arc_sortE (FsaExpr.invert (FsaExpr.connect (FsaExpr.intersect
            (FsaExpr.linear_fsa [[3]]) (FsaExpr.fsa c4comp.L_inv))))))
  ∧ (c4comp.compile [""]).expr
      ≠ FsaExpr.connect (FsaExpr.compose (FsaExpr.fsa c4comp.ctc_topo)
          (FsaExpr.arc_sortE (FsaExpr.invert (FsaExpr.connect (FsaExpr.intersect
            (FsaExpr.linear_fsa [[]]) (FsaExpr.fsa c4comp.L_inv)))))) :=
  ⟨by decide, by decide, by decide, by decide⟩

/-- C4, amended.  `compile([""])` maps the empty transcript to the
one-element word-id sequence `[oov id]` (the single empty token produced
by splitting is OOV-substituted) and runs the standard pipeline on it
without raising, returning a well-defined acceptor expression with the
gradient flag cleared; the accepted language is that of the OOV word under
the lexicon and topology, not the blank-only language. -/
theorem claim_C4_amended (c : Compiler) (h0 : symContains c.words "" = false) :
    textToWordIds c.words c.oov "" = [symGet c.words c.oov]
  ∧ (c.compile [""]).expr
      = FsaExpr.connect (FsaExpr.compose (FsaExpr.fsa c.ctc_topo)
          (FsaExpr.arc_sortE (FsaExpr.invert (FsaExpr.connect (FsaExpr.intersect
            (FsaExpr.linear_fsa [[symGet c.words c.oov]])
            (FsaExpr.fsa c.L_inv))))))
  ∧ (c.compile [""]).requiresGrad = false := by
  have h1 := textToWordIds_empty c.words c.oov h0
  refine ⟨h1, ?e, rfl⟩
  have h2 : (c.compile [""]).expr
      = FsaExpr.connect (FsaExpr.compose (FsaExpr.fsa c.ctc_topo)
          (FsaExpr.arc_sortE (FsaExpr.invert (FsaExpr.connect (FsaExpr.intersect
            (FsaExpr.linear_fsa [textToWordIds c.words c.oov ""])
            (FsaExpr.fsa c.L_inv)))))) := rfl
  rw [h2, h1]

/-- Witness for the amended C4 at the concrete compiler `c4comp`. -/
theorem claim_C4_witness :
    symContains c4comp.words "" = false
  ∧ (textToWordIds c4comp.words c4comp.oov ""
        = [symGet c4comp.words c4comp.oov]
      ∧ (c4comp.compile [""]).expr
          = FsaExpr.connect (FsaExpr.compose (FsaExpr.fsa c4comp.ctc_topo)
              (FsaExpr.arc_sortE (FsaExpr.invert (FsaExpr.connect
                (FsaExpr.intersect
                  (FsaExpr.linear_fsa [[symGet c4comp.words c4comp.oov]])
                  (FsaExpr.fsa c4comp.L_inv))))))
      ∧ (c4comp.compile [""]).requiresGrad = false) :=
  ⟨by decide, claim_C4_amended c4comp (by decide)⟩

/-- C6: an out-of-vocabulary word is silently replaced by the configured
id of the OOV symbol, so compiling "a XYZ c" (with XYZ absent from the word
table) produces a result identical to compiling "a <UNK> c" when the
configured OOV symbol is <UNK> and is present in the table. -/
theorem claim_C6_oov_substitution (c : Compiler)
    (h1 : symContains c.words "XYZ" = false)
    (h2 : c.oov = "<UNK>")
    (h3 : symContains c.words "<UNK>" = true) :
    c.compile ["a XYZ c"] = c.compile ["a <UNK> c"] := by
  have hmid : (if symContains c.words "XYZ" then "XYZ" else c.oov)
      = (if symContains c.words "<UNK>" then "<UNK>" else c.oov) := by
    rw [h1, h3]
    simp [h2]
  have hw : textToWordIds c.words c.oov "a XYZ c"
      = textToWordIds c.words c.oov "a <UNK> c" := by
    unfold textToWordIds
    rw [show splitSpace "a XYZ c" = ["a", "XYZ", "c"] from rfl,
      show splitSpace "a <UNK> c" = ["a", "<UNK>", "c"] from rfl]
    simp only [List.map_cons, List.map_nil, hmid]
  have hone : ∀ x : String, c.compile [x] =
      { expr := FsaExpr.connect (FsaExpr.compose (FsaExpr.fsa c.ctc_topo)
          (FsaExpr.arc_sortE (FsaExpr.invert (FsaExpr.connect (FsaExpr.intersect
            (FsaExpr.linear_fsa [textToWordIds c.words c.oov x])
            (FsaExpr.fsa c.L_inv)))))),
        requiresGrad := false } := fun x => rfl
  rw [hone, hone, hw]

/-- A concrete compiler instance for the C6 witness. -/
def c6comp : Compiler :=
  ⟨⟨[], 0⟩, [], [("a", 1), ("c", 2), ("<UNK>", 3)], "<UNK>", ⟨[], 0⟩⟩

/-- Witness for C6 at the concrete compiler `c6comp`. -/
theorem claim_C6_witness :
    symContains c6comp.words "XYZ" = false
  ∧ c6comp.oov = "<UNK>"
  ∧ symContains c6comp.words "<UNK>" = true
  ∧ c6comp.compile ["a XYZ c"] = c6comp.compile ["a <UNK> c"] :=
  ⟨by decide, rfl, by decide,
    claim_C6_oov_substitution c6comp (by decide) rfl (by decide)⟩
